import Mathlib

/-!
# Verification of the SyncMate glossary-extraction pipeline

Shallow embedding of the glossary extraction pipeline
(`src/lib/glossaryExtractor.ts` and `src/lib/backgroundGlossaryProcessor.ts`):
column type detection, numeric statistics, file-processing orchestration,
text truncation, the retrying extraction client, term deduplication, and the
background processor's in-flight guard.

Strings are modelled as Lean `String` / `List Char`; JavaScript numbers that
hold integral counters are modelled as `Nat`, and value-level numbers
(confidences, parsed numeric cell values) as `ℚ`.  The `< 0.6 * n` threshold
comparison of `detectDataType` is embedded as the exact integer comparison
`5 * m < 3 * n`; for every reachable sample size (`n ≤ 50`) and integer score
this agrees with the IEEE-double computation performed by the JavaScript
engine (checked exhaustively for all `n ≤ 50`).
-/

namespace SyncMate

/-! ## Configuration constants (`CONFIG` in glossaryExtractor.ts) -/

def AI_MAX_RETRIES : Nat := 3
def AI_RETRY_DELAY : Nat := 1000
def MAX_FILE_SIZE : Nat := 50 * 1024 * 1024
def MAX_TEXT_LENGTH : Nat := 100000
def MAX_ROWS_TO_ANALYZE : Nat := 1000
def SAMPLE_VALUES_COUNT : Nat := 8
def TYPE_DETECTION_SAMPLE_SIZE : Nat := 100

/-! ## JavaScript string primitives

`isJsWhitespace` is the character class matched by `\s` in a JavaScript
regular expression and stripped by `String.prototype.trim` (ECMAScript
WhiteSpace ∪ LineTerminator). -/

def isJsWhitespace (c : Char) : Bool :=
  c = ' ' || c = '\t' || c = '\n' || c = '\u000B' || c = '\u000C' || c = '\r' ||
  c = '\u00A0' || c = '\u1680' || c = '\u2000' || c = '\u2001' || c = '\u2002' ||
  c = '\u2003' || c = '\u2004' || c = '\u2005' || c = '\u2006' || c = '\u2007' ||
  c = '\u2008' || c = '\u2009' || c = '\u200A' || c = '\u2028' || c = '\u2029' ||
  c = '\u202F' || c = '\u205F' || c = '\u3000' || c = '\uFEFF'

def isLineTerminator (c : Char) : Bool :=
  c = '\n' || c = '\r' || c = '\u2028' || c = '\u2029'

/-- `value.trim()` on the character list: drop JS whitespace at both ends. -/
def jsTrim (s : List Char) : List Char :=
  ((s.dropWhile isJsWhitespace).reverse.dropWhile isJsWhitespace).reverse

def jsTrimStr (s : String) : String := String.mk (jsTrim s.toList)

/-- case-insensitive lowering used by `toLowerCase` / the `i` regex flag
(ASCII range; the sampled values in scope are ASCII). -/
def jsLower (s : List Char) : List Char := s.map Char.toLower

/-! ## The regex recognizers of `FileProcessor.detectDataType`

Each definition is the language of the corresponding anchored JavaScript
regular expression, as an executable membership test on the character list. -/

/-- `/^[^\s@]+@[^\s@]+\.[^\s@]+$/` : a non-empty `@`-free non-space part,
one `@`, then a part containing a `.` that is neither its first nor its
last character, with no whitespace or further `@` anywhere. -/
def emailMatch (s : List Char) : Bool :=
  let a := s.takeWhile (fun c => c ≠ '@')
  let b := s.dropWhile (fun c => c ≠ '@')
  let post := b.drop 1
  !b.isEmpty && !a.isEmpty && a.all (fun c => !isJsWhitespace c) &&
    post.all (fun c => !isJsWhitespace c && c ≠ '@') &&
    ((post.drop 1).dropLast.contains '.')

/-- `/^https?:\/\/.+/i` : case-insensitive `http://` or `https://` followed by
at least one character that is not a line terminator (the JS `.`). -/
def urlMatch (s : List Char) : Bool :=
  let low := jsLower s
  (low.take 7 = "http://".toList && restHasChar (s.drop 7)) ||
  (low.take 8 = "https://".toList && restHasChar (s.drop 8))
where
  restHasChar : List Char → Bool
    | [] => false
    | c :: _ => !isLineTerminator c

def isPhoneChar (c : Char) : Bool :=
  c.isDigit || isJsWhitespace c || c = '-' || c = '(' || c = ')'

/-- `/^\+?[\d\s\-\(\)]{7,}$/` : an optional leading `+` (which, not being in
the character class, must be consumed by `\+?` when present), then at least
7 characters from the class. -/
def phoneMatch (s : List Char) : Bool :=
  let rest := if s.head? = some '+' then s.drop 1 else s
  rest.length ≥ 7 && rest.all isPhoneChar

def isIdChar (c : Char) : Bool :=
  c.isAlpha || c.isDigit || c = '-' || c = '_'

/-- `/^[A-Z0-9\-_]{6,}$/i` -/
def idMatch (s : List Char) : Bool :=
  s.length ≥ 6 && s.all isIdChar

/-- `/^\s*-?\d+(\.\d+)?\s*$/` -/
def numberMatch (s : List Char) : Bool :=
  let t0 := s.dropWhile isJsWhitespace
  let t := if t0.head? = some '-' then t0.drop 1 else t0
  let ds := t.takeWhile Char.isDigit
  let rest := t.dropWhile Char.isDigit
  !ds.isEmpty &&
    (if rest.head? = some '.' then
      !((rest.drop 1).takeWhile Char.isDigit).isEmpty &&
        ((rest.drop 1).dropWhile Char.isDigit).all isJsWhitespace
     else rest.all isJsWhitespace)

/-- `/^(true|false|yes|no|y|n|0|1)$/i` -/
def booleanMatch (s : List Char) : Bool :=
  let low := jsLower s
  low = "true".toList || low = "false".toList || low = "yes".toList ||
  low = "no".toList || low = "y".toList || low = "n".toList ||
  low = "0".toList || low = "1".toList

/-! ## `FileProcessor.detectDataType` -/

/-- The `DataType` union of glossaryExtractor.ts. -/
inductive DataType where
  | string | number | date | boolean | email | url | phone | id | unknown
deriving DecidableEq, Repr

/-- The `scores` record of `detectDataType` (insertion order: email, url,
phone, id, number, date, boolean). -/
structure Scores where
  email : Nat
  url : Nat
  phone : Nat
  id : Nat
  number : Nat
  date : Nat
  boolean : Nat
deriving DecidableEq, Repr

def Scores.init : Scores := ⟨0, 0, 0, 0, 0, 0, 0⟩

/-- `Object.values(scores)` in insertion order. -/
def Scores.values (s : Scores) : List Nat :=
  [s.email, s.url, s.phone, s.id, s.number, s.date, s.boolean]

/-- `Object.entries(scores)` in insertion order, keys as `DataType` tags. -/
def Scores.entries (s : Scores) : List (DataType × Nat) :=
  [(.email, s.email), (.url, s.url), (.phone, s.phone), (.id, s.id),
   (.number, s.number), (.date, s.date), (.boolean, s.boolean)]

/-- The body of the scoring loop for one sampled value: trim, then test the
recognizers in the fixed if/else-if order of the source (email, url, phone,
id, number, boolean, then the `Date.parse` fallback).  `Date.parse` is a
host-engine builtin, so it is passed in as the parameter `dateParse`
(`dateParse s = true` models `!isNaN(Date.parse(s))`). -/
def classifyTrimmed (dateParse : String → Bool) (trimmed : List Char) : Option DataType :=
  if emailMatch trimmed then some .email
  else if urlMatch trimmed then some .url
  else if phoneMatch trimmed then some .phone
  else if idMatch trimmed then some .id
  else if numberMatch trimmed then some .number
  else if booleanMatch trimmed then some .boolean
  else if dateParse (String.mk trimmed) && trimmed.length > 6 then some .date
  else none

def classifyValue (dateParse : String → Bool) (value : String) : Option DataType :=
  classifyTrimmed dateParse (jsTrim value.toList)

/-- One iteration of the scoring loop: increment the score named by the
classification of the value (if any). -/
def Scores.bump (s : Scores) : Option DataType → Scores
  | some .email => { s with email := s.email + 1 }
  | some .url => { s with url := s.url + 1 }
  | some .phone => { s with phone := s.phone + 1 }
  | some .id => { s with id := s.id + 1 }
  | some .number => { s with number := s.number + 1 }
  | some .date => { s with date := s.date + 1 }
  | some .boolean => { s with boolean := s.boolean + 1 }
  | _ => s

/-- `Math.min(50, values.length)`. -/
def effectiveSampleSize (values : List String) : Nat := min 50 values.length

/-- The scores accumulated over `values.slice(0, sampleSize)`. -/
def scoresOf (dateParse : String → Bool) (values : List String) : Scores :=
  (values.take (effectiveSampleSize values)).foldl
    (fun s v => s.bump (classifyValue dateParse v)) Scores.init

/-- `Math.max(...Object.values(scores))` (all scores are non-negative, so the
fold from 0 agrees with the variadic `Math.max`). -/
def maxScoreOf (dateParse : String → Bool) (values : List String) : Nat :=
  (scoresOf dateParse values).values.foldl Nat.max 0

/-- `maxScore < sampleSize * 0.6` of the source, embedded as the exact
integer comparison `5 * maxScore < 3 * sampleSize`; for every reachable
sample size (`n ≤ 50`) and integer score this coincides with the
IEEE-double comparison the JavaScript engine performs. -/
def belowThreshold (maxScore sampleSize : Nat) : Prop :=
  5 * maxScore < 3 * sampleSize

instance (m n : Nat) : Decidable (belowThreshold m n) := by
  unfold belowThreshold; infer_instance

/-- `FileProcessor.detectDataType`. -/
def detectDataType (dateParse : String → Bool) (values : List String) : DataType :=
  if values.isEmpty then .unknown
  else
    let sampleSize := effectiveSampleSize values
    let maxScore := maxScoreOf dateParse values
    if belowThreshold maxScore sampleSize then .string
    else
      match ((scoresOf dateParse values).entries.find? (fun p => p.2 = maxScore)) with
      | some p => p.1
      | none => .string

/-! ## `FileProcessor.calculateStatistics`

`Number(v)` is modelled by `jsNumber` on decimal numeric literals: trimmed
empty strings map to `0`, signed decimal integer/fraction literals map to
their exact rational value, and every other shape (hexadecimal, exponent,
`Infinity`, garbage) is treated as NaN (`none`).  The numeric-pattern values
these claims quantify over are always plain decimal literals. -/

def digitsVal (ds : List Char) : Nat :=
  ds.foldl (fun acc c => acc * 10 + (c.toNat - '0'.toNat)) 0

def parseAfterSign (sign : ℚ) (t1 : List Char) : Option ℚ :=
  let intPart := t1.takeWhile Char.isDigit
  let rest := t1.dropWhile Char.isDigit
  if rest.all isJsWhitespace then
    if intPart.isEmpty then none else some (sign * digitsVal intPart)
  else if rest.head? = some '.' then
    let fracPart := (rest.drop 1).takeWhile Char.isDigit
    if !((rest.drop 1).dropWhile Char.isDigit).all isJsWhitespace then none
    else if intPart.isEmpty && fracPart.isEmpty then none
    else
      some (sign * ((digitsVal intPart : ℚ) +
        (digitsVal fracPart : ℚ) / (10 ^ fracPart.length : ℚ)))
  else none

def parseJsDecimal (t : List Char) : Option ℚ :=
  let t0 := t.dropWhile isJsWhitespace
  if t0.head? = some '-' then parseAfterSign (-1) (t0.drop 1)
  else if t0.head? = some '+' then parseAfterSign 1 (t0.drop 1)
  else parseAfterSign 1 t0

def jsNumber (s : String) : Option ℚ :=
  let t := jsTrim s.toList
  if t.isEmpty then some 0 else parseJsDecimal t

structure NumStats where
  min : ℚ
  max : ℚ
  avg : ℚ
deriving DecidableEq, Repr

/-- The ordered recognizer list prescribed by the spec (§4.2): email, url,
phone, id, number, boolean.  Each entry pairs a type tag with its matcher.
Used to compare the source's if/else-if chain against the spec's
"first matching recognizer" description. -/
def recognizerOrder : List (DataType × (List Char → Bool)) :=
  [(.email, emailMatch), (.url, urlMatch), (.phone, phoneMatch),
   (.id, idMatch), (.number, numberMatch), (.boolean, booleanMatch)]

/-- The tag of the first recognizer (in priority order) matching `t`. -/
def firstRecognizer (t : List Char) : Option DataType :=
  (recognizerOrder.find? (fun p => p.2 t)).map Prod.fst

/-- `FileProcessor.calculateStatistics`: `undefined` becomes `none`. -/
def calculateStatistics (values : List String) (type : DataType) : Option NumStats :=
  if type ≠ DataType.number ∨ values.isEmpty then none
  else
    match values.filterMap jsNumber with
    | [] => none
    | h :: t =>
        some { min := t.foldl min h
               max := t.foldl max h
               avg := ((h :: t).foldl (· + ·) 0) / ((h :: t).length : ℚ) }

/-! ## Character-level facts about the recognizers -/

lemma phoneMatch_chars {t : List Char} (h : phoneMatch t = true) :
    ∀ c ∈ t, isPhoneChar c = true ∨ c = '+' := by
  simp only [phoneMatch, Bool.and_eq_true, decide_eq_true_eq, List.all_eq_true] at h
  intro c hc
  by_cases hh : t.head? = some '+'
  · have ht : '+' :: t.tail = t := List.cons_head?_tail (by simp [hh])
    rw [if_pos hh] at h
    rw [← ht] at hc
    rcases List.mem_cons.mp hc with rfl | hc
    · exact Or.inr rfl
    · exact Or.inl (h.2 c (by rwa [List.drop_one]))
  · rw [if_neg hh] at h
    exact Or.inl (h.2 c hc)

lemma emailMatch_at_mem {t : List Char} (h : emailMatch t = true) : '@' ∈ t := by
  simp only [emailMatch, Bool.and_eq_true, Bool.not_eq_eq_eq_not, Bool.not_true] at h
  have hb : (t.dropWhile (fun c => decide (c ≠ '@'))).isEmpty = false := h.1.1.1.1
  have hbne : t.dropWhile (fun c => decide (c ≠ '@')) ≠ [] := by
    intro hnil; rw [hnil] at hb; simp at hb
  have hhead : decide (((t.dropWhile (fun c => decide (c ≠ '@'))).head hbne) ≠ '@') = false :=
    List.head_dropWhile_not _ t hbne
  have heq : (t.dropWhile (fun c => decide (c ≠ '@'))).head hbne = '@' := by
    simpa using hhead
  have hmem := List.head_mem hbne
  rw [heq] at hmem
  exact List.dropWhile_subset _ hmem

lemma urlMatch_head {t : List Char} (h : urlMatch t = true) :
    ∃ c r, t = c :: r ∧ Char.toLower c = 'h' := by
  simp only [urlMatch, jsLower, Bool.or_eq_true, Bool.and_eq_true, decide_eq_true_eq] at h
  cases t with
  | nil => simp at h
  | cons c r =>
      refine ⟨c, r, rfl, ?_⟩
      rcases h with ⟨h7, _⟩ | ⟨h8, _⟩
      · have : Char.toLower c :: (r.map Char.toLower).take 6 = "http://".toList := by
          simpa [List.take_succ_cons] using h7
        exact (List.cons.injEq _ _ _ _ ▸ this).1
      · have : Char.toLower c :: (r.map Char.toLower).take 7 = "https://".toList := by
          simpa [List.take_succ_cons] using h8
        exact (List.cons.injEq _ _ _ _ ▸ this).1

/-- The characters a `numberMatch` string can contain. -/
def isNumTokenChar (c : Char) : Bool :=
  isJsWhitespace c || c = '-' || c.isDigit || c = '.'

lemma numberMatch_chars {t : List Char} (h : numberMatch t = true) :
    ∀ c ∈ t, isNumTokenChar c = true := by
  simp only [numberMatch, Bool.and_eq_true, Bool.not_eq_eq_eq_not, Bool.not_true] at h
  intro c hc
  by_cases hws : isJsWhitespace c
  · simp [isNumTokenChar, hws]
  · -- c survives into `t0`, the whitespace-stripped head of `t`, or is in the tail whitespace
    set t0 := t.dropWhile isJsWhitespace with ht0
    have hsplit : t.takeWhile isJsWhitespace ++ t0 = t := List.takeWhile_append_dropWhile ..
    have hc0 : c ∈ t0 := by
      rcases List.mem_append.mp (hsplit ▸ hc) with hmem | hmem
      · exact absurd (List.mem_takeWhile_imp hmem) (by simpa using hws)
      · exact hmem
    -- strip the optional minus sign
    set t1 := if t0.head? = some '-' then t0.drop 1 else t0 with ht1
    have hc1 : c ∈ t1 ∨ c = '-' := by
      by_cases hm : t0.head? = some '-'
      · have hcons : '-' :: t0.tail = t0 := List.cons_head?_tail (by simp [hm])
        rw [ht1, if_pos hm, List.drop_one]
        rcases List.mem_cons.mp (hcons ▸ hc0) with rfl | hmem
        · exact Or.inr rfl
        · exact Or.inl hmem
      · rw [ht1, if_neg hm]; exact Or.inl hc0
    rcases hc1 with hc1 | rfl
    · -- c is a digit, a dot, or trailing whitespace
      obtain ⟨hds, hrest⟩ := h
      have hsplit1 : t1.takeWhile Char.isDigit ++ t1.dropWhile Char.isDigit = t1 :=
        List.takeWhile_append_dropWhile ..
      rcases List.mem_append.mp (hsplit1 ▸ hc1) with hmem | hmem
      · simp [isNumTokenChar, List.mem_takeWhile_imp hmem]
      · set rest := t1.dropWhile Char.isDigit with hrest2
        by_cases hdot : rest.head? = some '.'
        · rw [if_pos hdot] at hrest
          simp only [Bool.and_eq_true, Bool.not_eq_eq_eq_not, Bool.not_true,
            List.all_eq_true] at hrest
          have hcons : '.' :: rest.tail = rest := List.cons_head?_tail (by simp [hdot])
          rcases List.mem_cons.mp (hcons ▸ hmem) with rfl | hmem
          · simp [isNumTokenChar]
          · have hsplit2 : (rest.drop 1).takeWhile Char.isDigit ++
                (rest.drop 1).dropWhile Char.isDigit = rest.drop 1 :=
              List.takeWhile_append_dropWhile ..
            have hmem1 : c ∈ rest.drop 1 := by rw [List.drop_one, ← hcons]; simpa using hmem
            rcases List.mem_append.mp (hsplit2 ▸ hmem1) with hmem2 | hmem2
            · simp [isNumTokenChar, List.mem_takeWhile_imp hmem2]
            · exact absurd (hrest.2 c hmem2) (by simpa using hws)
        · rw [if_neg hdot] at hrest
          simp only [List.all_eq_true] at hrest
          exact absurd (hrest c hmem) (by simpa using hws)
    · simp [isNumTokenChar]

/-- `Char.toLower` only maps `'h'` and `'H'` to `'h'`. -/
lemma toLower_ne_h {c : Char} (h1 : c ≠ 'h') (h2 : c ≠ 'H') :
    Char.toLower c ≠ 'h' := by
  intro habs
  rw [show Char.toLower c =
      (if c.toNat ≥ 65 ∧ c.toNat ≤ 90 then Char.ofNat (c.toNat + 32) else c) from rfl] at habs
  split at habs
  case isTrue hcond =>
    apply h2
    have hvalid : (c.toNat + 32).isValidChar := Or.inl (by omega)
    have htn : (Char.ofNat (c.toNat + 32)).toNat = c.toNat + 32 := by
      rw [Char.ofNat, dif_pos hvalid]; rfl
    rw [habs] at htn
    have h72 : c.toNat = 72 := by
      have : (104 : Nat) = c.toNat + 32 := htn
      omega
    have : c = Char.ofNat 72 := by rw [← h72, Char.ofNat_toNat]
    rw [this]
  case isFalse => exact h1 habs

lemma phoneMatch_not_email {t : List Char} (h : phoneMatch t = true) :
    emailMatch t = false := by
  by_contra habs
  have hmem := emailMatch_at_mem (by simpa using habs)
  rcases phoneMatch_chars h '@' hmem with hc | hc <;> exact absurd hc (by decide)

lemma phoneMatch_not_url {t : List Char} (h : phoneMatch t = true) :
    urlMatch t = false := by
  by_contra habs
  obtain ⟨c, r, rfl, hlow⟩ := urlMatch_head (by simpa using habs)
  have hc := phoneMatch_chars h c (List.mem_cons_self ..)
  have hne1 : c ≠ 'h' := by
    rintro rfl; rcases hc with hc | hc <;> exact absurd hc (by decide)
  have hne2 : c ≠ 'H' := by
    rintro rfl; rcases hc with hc | hc <;> exact absurd hc (by decide)
  exact toLower_ne_h hne1 hne2 hlow

lemma numberMatch_not_email {t : List Char} (h : numberMatch t = true) :
    emailMatch t = false := by
  by_contra habs
  have hmem := emailMatch_at_mem (by simpa using habs)
  exact absurd (numberMatch_chars h '@' hmem) (by decide)

lemma numberMatch_not_url {t : List Char} (h : numberMatch t = true) :
    urlMatch t = false := by
  by_contra habs
  obtain ⟨c, r, rfl, hlow⟩ := urlMatch_head (by simpa using habs)
  have hc := numberMatch_chars h c (List.mem_cons_self ..)
  have hne1 : c ≠ 'h' := by rintro rfl; exact absurd hc (by decide)
  have hne2 : c ≠ 'H' := by rintro rfl; exact absurd hc (by decide)
  exact toLower_ne_h hne1 hne2 hlow

/-! ## Claims C1 and C2 -/

/-- C1: For every non-empty list of sampled string values, if the highest
per-type recognizer score is strictly below 60% of the effective sample size
(the list capped to its first 50 values), `detectDataType` returns the type
tag `string`. -/
theorem C1_below_threshold_detects_string (dateParse : String → Bool)
    (values : List String) (hne : values ≠ [])
    (h : belowThreshold (maxScoreOf dateParse values) (effectiveSampleSize values)) :
    detectDataType dateParse values = DataType.string := by
  have h0 : values.isEmpty = false := by
    cases values with
    | nil => exact absurd rfl hne
    | cons a l => rfl
  simp only [detectDataType, h0, Bool.false_eq_true, if_false, if_pos h]

theorem C1_below_threshold_detects_string_witness :
    (["@", "@", "@"] : List String) ≠ [] ∧
    belowThreshold (maxScoreOf (fun _ => false) ["@", "@", "@"])
      (effectiveSampleSize ["@", "@", "@"]) ∧
    detectDataType (fun _ => false) ["@", "@", "@"] = DataType.string :=
  ⟨by decide, by decide,
    C1_below_threshold_detects_string (fun _ => false) ["@", "@", "@"]
      (by decide) (by decide)⟩

/-- C2: For every sampled value, the regular-expression recognizers are
tested in the fixed order email, url, phone, id, number, boolean, and only
the first matching recognizer determines the score that is incremented
(formally: whenever some recognizer matches the trimmed value, the
classification equals the tag of the first matching recognizer in that
order); in particular a value matching both the phone pattern and the
numeric pattern is classified as phone, not number. -/
theorem C2_recognizer_priority (dateParse : String → Bool) (v : String) :
    (recognizerOrder.any (fun p => p.2 (jsTrim v.toList)) = true →
      classifyValue dateParse v = firstRecognizer (jsTrim v.toList)) ∧
    (phoneMatch (jsTrim v.toList) = true → numberMatch (jsTrim v.toList) = true →
      classifyValue dateParse v = some DataType.phone) := by
  have hcv : classifyValue dateParse v = classifyTrimmed dateParse (jsTrim v.toList) := rfl
  rw [hcv]
  generalize jsTrim v.toList = t
  constructor
  · intro hany
    by_cases he : emailMatch t
    · simp [classifyTrimmed, firstRecognizer, recognizerOrder, List.find?, he]
    · by_cases hu : urlMatch t
      · simp [classifyTrimmed, firstRecognizer, recognizerOrder, List.find?, he, hu]
      · by_cases hp : phoneMatch t
        · simp [classifyTrimmed, firstRecognizer, recognizerOrder, List.find?, he, hu, hp]
        · by_cases hi : idMatch t
          · simp [classifyTrimmed, firstRecognizer, recognizerOrder, List.find?, he, hu, hp, hi]
          · by_cases hn : numberMatch t
            · simp [classifyTrimmed, firstRecognizer, recognizerOrder, List.find?,
                he, hu, hp, hi, hn]
            · by_cases hb : booleanMatch t
              · simp [classifyTrimmed, firstRecognizer, recognizerOrder, List.find?,
                  he, hu, hp, hi, hn, hb]
              · exfalso
                simp [recognizerOrder, he, hu, hp, hi, hn, hb] at hany
  · intro hp hn
    have he := phoneMatch_not_email hp
    have hu := phoneMatch_not_url hp
    simp [classifyTrimmed, he, hu, hp]

theorem C2_recognizer_priority_witness :
    classifyValue (fun _ => false) "a@b.c" = firstRecognizer (jsTrim "a@b.c".toList) ∧
    classifyValue (fun _ => false) "1234567" = some DataType.phone :=
  ⟨(C2_recognizer_priority (fun _ => false) "a@b.c").1 (by decide),
   (C2_recognizer_priority (fun _ => false) "1234567").2 (by decide) (by decide)⟩

/-! ## Claim C3 -/

lemma parseAfterSign_isSome (sign : ℚ) (t1 : List Char)
    (hds : (t1.takeWhile Char.isDigit).isEmpty = false)
    (hrest : (if (t1.dropWhile Char.isDigit).head? = some '.' then
        !(((t1.dropWhile Char.isDigit).drop 1).takeWhile Char.isDigit).isEmpty &&
          (((t1.dropWhile Char.isDigit).drop 1).dropWhile Char.isDigit).all isJsWhitespace
      else (t1.dropWhile Char.isDigit).all isJsWhitespace) = true) :
    ∃ q, parseAfterSign sign t1 = some q := by
  simp only [parseAfterSign]
  by_cases hws : ((t1.dropWhile Char.isDigit).all isJsWhitespace)
  · rw [if_pos hws, if_neg (by simp [hds])]
    exact ⟨_, rfl⟩
  · rw [if_neg hws]
    by_cases hdot : (t1.dropWhile Char.isDigit).head? = some '.'
    · rw [if_pos hdot] at hrest
      simp only [Bool.and_eq_true, Bool.not_eq_eq_eq_not, Bool.not_true] at hrest
      rw [if_pos hdot, if_neg (by simpa using hrest.2), if_neg (by simp [hds])]
      exact ⟨_, rfl⟩
    · rw [if_neg hdot] at hrest
      exact absurd hrest (by simpa using hws)

/-- A value matching the numeric pattern parses successfully under
`jsNumber` (the model of `Number(...)`). -/
lemma numberMatch_jsNumber_isSome {v : String}
    (h : numberMatch (jsTrim v.toList) = true) : ∃ q, jsNumber v = some q := by
  unfold jsNumber
  by_cases hemp : (jsTrim v.toList).isEmpty
  · exact ⟨0, by rw [if_pos hemp]⟩
  rw [if_neg hemp]
  generalize jsTrim v.toList = t at h ⊢
  simp only [numberMatch, Bool.and_eq_true, Bool.not_eq_eq_eq_not, Bool.not_true] at h
  obtain ⟨hds, hrest⟩ := h
  simp only [parseJsDecimal]
  by_cases hminus : (t.dropWhile isJsWhitespace).head? = some '-'
  · rw [if_pos hminus] at hds hrest
    rw [if_pos hminus]
    exact parseAfterSign_isSome _ _ hds hrest
  · rw [if_neg hminus] at hds hrest
    rw [if_neg hminus]
    have hplus : (t.dropWhile isJsWhitespace).head? ≠ some '+' := by
      intro habs
      have hcons : '+' :: (t.dropWhile isJsWhitespace).tail = t.dropWhile isJsWhitespace :=
        List.cons_head?_tail (by simp [habs])
      rw [← hcons, List.takeWhile_cons] at hds
      simp at hds
    rw [if_neg hplus]
    exact parseAfterSign_isSome _ _ hds hrest

lemma classifyValue_number {dateParse : String → Bool} {v : String}
    (hn : numberMatch (jsTrim v.toList) = true)
    (hp : phoneMatch (jsTrim v.toList) = false)
    (hi : idMatch (jsTrim v.toList) = false) :
    classifyValue dateParse v = some DataType.number := by
  have he := numberMatch_not_email hn
  have hu := numberMatch_not_url hn
  have hcv : classifyValue dateParse v = classifyTrimmed dateParse (jsTrim v.toList) := rfl
  rw [hcv]
  generalize jsTrim v.toList = t at he hu hp hi hn ⊢
  simp [classifyTrimmed, he, hu, hp, hi, hn]

lemma foldl_bump_all_number (dateParse : String → Bool) :
    ∀ (l : List String) (s0 : Scores),
      (∀ v ∈ l, classifyValue dateParse v = some DataType.number) →
      l.foldl (fun s v => s.bump (classifyValue dateParse v)) s0 =
        { s0 with number := s0.number + l.length } := by
  intro l
  induction l with
  | nil => intro s0 _; simp
  | cons a l ih =>
      intro s0 h
      have ha := h a (List.mem_cons_self ..)
      rw [List.foldl_cons, ha,
        ih _ (fun v hv => h v (List.mem_cons_of_mem _ hv))]
      simp only [Scores.bump, List.length_cons]
      congr 1
      omega

lemma foldl_min_le (l : List ℚ) (a : ℚ) : ∀ x ∈ a :: l, List.foldl min a l ≤ x := by
  induction l generalizing a with
  | nil =>
      intro x hx
      rw [List.mem_singleton] at hx
      subst hx
      simp
  | cons b l ih =>
      intro x hx
      rw [List.foldl_cons]
      have hhead : List.foldl min (min a b) l ≤ min a b :=
        ih (min a b) (min a b) (List.mem_cons_self ..)
      rcases List.mem_cons.mp hx with rfl | hx
      · exact hhead.trans (min_le_left ..)
      rcases List.mem_cons.mp hx with rfl | hx
      · exact hhead.trans (min_le_right ..)
      · exact ih (min a b) x (List.mem_cons_of_mem _ hx)

lemma le_foldl_max (l : List ℚ) (a : ℚ) : ∀ x ∈ a :: l, x ≤ List.foldl max a l := by
  induction l generalizing a with
  | nil =>
      intro x hx
      rw [List.mem_singleton] at hx
      subst hx
      simp
  | cons b l ih =>
      intro x hx
      rw [List.foldl_cons]
      have hhead : max a b ≤ List.foldl max (max a b) l :=
        ih (max a b) (max a b) (List.mem_cons_self ..)
      rcases List.mem_cons.mp hx with rfl | hx
      · exact (le_max_left ..).trans hhead
      rcases List.mem_cons.mp hx with rfl | hx
      · exact (le_max_right ..).trans hhead
      · exact ih (max a b) x (List.mem_cons_of_mem _ hx)

/-- C3 counterexample: the sample `["1234567"]` consists entirely of values
matching the numeric pattern, yet `detectDataType` returns `phone`, because
the phone recognizer is tested before the numeric one and `"1234567"` (7
digits) also matches the phone pattern. -/
theorem C3_counterexample :
    (∀ v ∈ (["1234567"] : List String), numberMatch (jsTrim v.toList) = true) ∧
    detectDataType (fun _ => false) ["1234567"] = DataType.phone ∧
    detectDataType (fun _ => false) ["1234567"] ≠ DataType.number := by
  refine ⟨by decide, by decide, by decide⟩

/-- C3 (amended): For every non-empty sample in which every value matches
the numeric pattern *and no value also matches the earlier-tested phone or
id patterns*, `detectDataType` returns `number`, and the numeric statistics
computed for that column satisfy `min ≤ v ≤ max` for every value `v`
parseable as a number. -/
theorem C3_all_numeric_detects_number (dateParse : String → Bool) (values : List String)
    (hne : values ≠ [])
    (hnum : ∀ v ∈ values, numberMatch (jsTrim v.toList) = true)
    (hp : ∀ v ∈ values, phoneMatch (jsTrim v.toList) = false)
    (hi : ∀ v ∈ values, idMatch (jsTrim v.toList) = false) :
    detectDataType dateParse values = DataType.number ∧
    ∃ st, calculateStatistics values DataType.number = some st ∧
      ∀ v ∈ values, ∀ q, jsNumber v = some q → st.min ≤ q ∧ q ≤ st.max := by
  have hclass : ∀ v ∈ values, classifyValue dateParse v = some DataType.number := fun v hv =>
    classifyValue_number (hnum v hv) (hp v hv) (hi v hv)
  have hn1 : 1 ≤ effectiveSampleSize values := by
    unfold effectiveSampleSize
    cases values with
    | nil => exact absurd rfl hne
    | cons a l => simp only [List.length_cons]; omega
  have hlen : (values.take (effectiveSampleSize values)).length = effectiveSampleSize values := by
    rw [List.length_take]
    unfold effectiveSampleSize
    omega
  have hscores : scoresOf dateParse values =
      ⟨0, 0, 0, 0, effectiveSampleSize values, 0, 0⟩ := by
    unfold scoresOf
    rw [foldl_bump_all_number dateParse _ Scores.init
      (fun v hv => hclass v (List.take_subset _ _ hv))]
    simp [Scores.init, hlen]
  have hmax : maxScoreOf dateParse values = effectiveSampleSize values := by
    unfold maxScoreOf
    rw [hscores]
    simp [Scores.values, List.foldl, Nat.zero_max, Nat.max_zero]
  have h0 : values.isEmpty = false := by
    cases values with
    | nil => exact absurd rfl hne
    | cons a l => rfl
  constructor
  · have hne0 : ¬((0 : Nat) = effectiveSampleSize values) := by omega
    have hthr : ¬ belowThreshold (effectiveSampleSize values) (effectiveSampleSize values) := by
      unfold belowThreshold
      omega
    simp only [detectDataType, h0, Bool.false_eq_true, if_false, if_neg hthr,
      hscores, hmax, Scores.entries, List.find?, hne0]
    simp
  · obtain ⟨v0, vs, rfl⟩ : ∃ v0 vs, values = v0 :: vs := by
      cases values with
      | nil => exact absurd rfl hne
      | cons a l => exact ⟨a, l, rfl⟩
    obtain ⟨q0, hq0⟩ := numberMatch_jsNumber_isSome (hnum v0 (List.mem_cons_self ..))
    have hfm : (v0 :: vs).filterMap jsNumber = q0 :: vs.filterMap jsNumber := by
      rw [List.filterMap_cons, hq0]
    unfold calculateStatistics
    rw [if_neg (by simp), hfm]
    refine ⟨_, rfl, ?_⟩
    intro v hv q hq
    have hqmem : q ∈ q0 :: vs.filterMap jsNumber := by
      rw [← hfm]
      exact List.mem_filterMap.mpr ⟨v, hv, hq⟩
    exact ⟨foldl_min_le _ _ q hqmem, le_foldl_max _ _ q hqmem⟩

theorem C3_all_numeric_detects_number_witness :
    (["12", "13"] : List String) ≠ [] ∧
    (∀ v ∈ (["12", "13"] : List String), numberMatch (jsTrim v.toList) = true) ∧
    (∀ v ∈ (["12", "13"] : List String), phoneMatch (jsTrim v.toList) = false) ∧
    (∀ v ∈ (["12", "13"] : List String), idMatch (jsTrim v.toList) = false) ∧
    (detectDataType (fun _ => false) ["12", "13"] = DataType.number ∧
      ∃ st, calculateStatistics ["12", "13"] DataType.number = some st ∧
        ∀ v ∈ (["12", "13"] : List String), ∀ q, jsNumber v = some q →
          st.min ≤ q ∧ q ≤ st.max) :=
  ⟨by decide, by decide, by decide, by decide,
    C3_all_numeric_detects_number (fun _ => false) ["12", "13"]
      (by decide) (by decide) (by decide) (by decide)⟩

/-! ## Claim C9: `FileProcessor.truncateText` -/

/-- Index of the last `'.'` in the list (`text.lastIndexOf(".")`), as an
optional index instead of the source's `-1` sentinel. -/
def lastDotIndex : List Char → Option Nat
  | [] => none
  | c :: r =>
      match lastDotIndex r with
      | some i => some (i + 1)
      | none => if c = '.' then some 0 else none

/-- `FileProcessor.truncateText`.  The comparison
`lastSentence > maxLength * 0.8` is embedded as the exact comparison
`5 * i > 4 * maxLength` (a missing dot, `-1` in the source, always fails the
comparison); at the configured `MAX_TEXT_LENGTH = 100000` the IEEE-double
product `100000 * 0.8` is exactly `80000`, so the embedding matches the
JavaScript comparison at every call site. -/
def truncateText (text : List Char) (maxLength : Nat) : List Char :=
  if text.length ≤ maxLength then text
  else
    let truncated := text.take maxLength
    match lastDotIndex truncated with
    | some i =>
        if 5 * i > 4 * maxLength then truncated.take (i + 1)
        else truncated ++ "...".toList
    | none => truncated ++ "...".toList

def truncateTextStr (s : String) (maxLength : Nat) : String :=
  String.mk (truncateText s.toList maxLength)

lemma lastDotIndex_replicate_a (n : Nat) :
    lastDotIndex (List.replicate n 'a') = none := by
  induction n with
  | zero => rfl
  | succ n ih => rw [List.replicate_succ]; simp [lastDotIndex, ih]

lemma truncateText_replicate_a {n m : Nat} (h : m < n) :
    truncateText (List.replicate n 'a') m = List.replicate m 'a' ++ "...".toList := by
  unfold truncateText
  rw [if_neg (by rw [List.length_replicate]; omega)]
  rw [List.take_replicate, (by omega : min m n = m)]
  simp only [lastDotIndex_replicate_a]

/-- C9 counterexample: a 100,001-character dot-free input is truncated to
the 100,000-character prefix *plus* a 3-character ellipsis, so the output
exceeds the fixed maximum of 100,000 characters. -/
theorem C9_counterexample :
    (truncateText (List.replicate 100001 'a') MAX_TEXT_LENGTH).length = 100003 ∧
    MAX_TEXT_LENGTH < (truncateText (List.replicate 100001 'a') MAX_TEXT_LENGTH).length := by
  have h1 : truncateText (List.replicate 100001 'a') MAX_TEXT_LENGTH =
      List.replicate MAX_TEXT_LENGTH 'a' ++ "...".toList :=
    truncateText_replicate_a (by unfold MAX_TEXT_LENGTH; omega)
  have hlen : (truncateText (List.replicate 100001 'a') MAX_TEXT_LENGTH).length = 100003 := by
    rw [h1, List.length_append, List.length_replicate,
      (by rfl : ("...".toList).length = 3)]
    unfold MAX_TEXT_LENGTH
    omega
  exact ⟨hlen, by rw [hlen]; unfold MAX_TEXT_LENGTH; omega⟩

/-- C9 (amended): For every input string, `truncateText` at the fixed
maximum (100,000) returns inputs at or below the limit unchanged; when
truncation is needed the output has length at most 100,003 (the
100,000-character prefix possibly extended by the 3-character ellipsis
marker, so the cap can be exceeded by up to 3 characters): if the truncated
prefix contains a `'.'` strictly after 80% of the limit the text is cut just
after that last sentence boundary (length ≤ 100,000), otherwise it is
hard-truncated with the ellipsis marker appended. -/
theorem C9_truncateText_behavior (text : List Char) :
    (text.length ≤ MAX_TEXT_LENGTH → truncateText text MAX_TEXT_LENGTH = text) ∧
    (MAX_TEXT_LENGTH < text.length →
      (truncateText text MAX_TEXT_LENGTH).length ≤ MAX_TEXT_LENGTH + 3 ∧
      (∀ i, lastDotIndex (text.take MAX_TEXT_LENGTH) = some i →
        5 * i > 4 * MAX_TEXT_LENGTH →
          truncateText text MAX_TEXT_LENGTH = (text.take MAX_TEXT_LENGTH).take (i + 1) ∧
          (truncateText text MAX_TEXT_LENGTH).length ≤ MAX_TEXT_LENGTH) ∧
      (∀ i, lastDotIndex (text.take MAX_TEXT_LENGTH) = some i →
        ¬(5 * i > 4 * MAX_TEXT_LENGTH) →
          truncateText text MAX_TEXT_LENGTH = text.take MAX_TEXT_LENGTH ++ "...".toList) ∧
      (lastDotIndex (text.take MAX_TEXT_LENGTH) = none →
          truncateText text MAX_TEXT_LENGTH = text.take MAX_TEXT_LENGTH ++ "...".toList)) := by
  constructor
  · intro hle
    unfold truncateText
    rw [if_pos hle]
  · intro hgt
    have hnle : ¬ text.length ≤ MAX_TEXT_LENGTH := by omega
    have htk : (text.take MAX_TEXT_LENGTH).length = MAX_TEXT_LENGTH := by
      rw [List.length_take]; omega
    refine ⟨?_, ?_, ?_, ?_⟩
    · unfold truncateText
      rw [if_neg hnle]
      have h3 : ("...".toList).length = 3 := by rfl
      rcases hdot : lastDotIndex (text.take MAX_TEXT_LENGTH) with _ | i
      · simp only [hdot]
        rw [List.length_append, htk, h3]
      · simp only [hdot]
        by_cases hcmp : 5 * i > 4 * MAX_TEXT_LENGTH
        · rw [if_pos hcmp, List.length_take]
          omega
        · rw [if_neg hcmp, List.length_append, htk, h3]
    · intro i hdot hcmp
      unfold truncateText
      rw [if_neg hnle]
      simp only [hdot]
      rw [if_pos hcmp]
      refine ⟨rfl, ?_⟩
      rw [List.length_take, List.length_take]
      omega
    · intro i hdot hcmp
      unfold truncateText
      rw [if_neg hnle]
      simp only [hdot]
      rw [if_neg hcmp]
    · intro hdot
      unfold truncateText
      rw [if_neg hnle]
      simp only [hdot]

theorem C9_truncateText_behavior_witness :
    "short text.".toList.length ≤ MAX_TEXT_LENGTH ∧
    truncateText "short text.".toList MAX_TEXT_LENGTH = "short text.".toList :=
  ⟨by decide, (C9_truncateText_behavior "short text.".toList).1 (by decide)⟩

/-! ## Claim C7: `EnhancedGeminiClient.extractTermsWithRetry`

The Gemini call itself is a network effect; one attempt is modelled by an
oracle `oracle i` giving the outcome of attempt `i` (`.ok` = response text
parsed successfully, `.error` = timeout, HTTP error, or malformed JSON,
carrying the failure message).  The embedding returns the loop's result
together with the ordered list of backoff delays (in ms) performed. -/

def failMsg (e : String) : String :=
  "Gemini API failed after " ++ toString AI_MAX_RETRIES ++ " attempts: " ++ e

/-- The retry loop of `extractTermsWithRetry`: `attempt` is the 1-based
attempt counter, `remaining` the number of attempts still allowed
(`AI_MAX_RETRIES - attempt + 1`); `lastErr` mirrors the `lastError`
variable (reaching `remaining = 0` with it is unreachable from the entry
point since `AI_MAX_RETRIES ≥ 1`). -/
def retryGo {α : Type} (oracle : Nat → Except String α) (lastErr : String) :
    (attempt remaining : Nat) → Except String α × List Nat
  | _, 0 => (.error (failMsg lastErr), [])
  | attempt, remaining + 1 =>
      match oracle attempt with
      | .ok r => (.ok r, [])
      | .error e =>
          if remaining = 0 then (.error (failMsg e), [])
          else
            let rest := retryGo oracle e (attempt + 1) remaining
            (rest.1, (AI_RETRY_DELAY * 2 ^ (attempt - 1)) :: rest.2)

def extractTermsWithRetry {α : Type} (oracle : Nat → Except String α) :
    Except String α × List Nat :=
  retryGo oracle "undefined" 1 AI_MAX_RETRIES

/-- C7: If every one of the configured maximum (3) attempts fails, the
caller receives exactly one aggregated error whose message states
"failed after 3 attempts" and ends with the last underlying failure
message; a backoff delay of `baseDelay * 2^(attempt-1)` precedes each
retry (attempts 2 and 3), and no delay follows the final attempt. -/
theorem C7_retry_exhaustion {α : Type} (oracle : Nat → Except String α)
    (e1 e2 e3 : String)
    (h1 : oracle 1 = .error e1) (h2 : oracle 2 = .error e2)
    (h3 : oracle 3 = .error e3) :
    extractTermsWithRetry oracle =
      (.error ("Gemini API failed after 3 attempts: " ++ e3),
       [AI_RETRY_DELAY * 2 ^ 0, AI_RETRY_DELAY * 2 ^ 1]) := by
  have hmsg : failMsg e3 = "Gemini API failed after 3 attempts: " ++ e3 := by
    unfold failMsg AI_MAX_RETRIES
    rfl
  unfold extractTermsWithRetry AI_MAX_RETRIES
  rw [show (3 : Nat) = 2 + 1 from rfl, retryGo, h1]
  dsimp only
  rw [if_neg (by omega : ¬ (2 : Nat) = 0)]
  rw [show (2 : Nat) = 1 + 1 from rfl, retryGo, h2]
  dsimp only
  rw [if_neg (by omega : ¬ (1 : Nat) = 0)]
  rw [show (1 : Nat) = 0 + 1 from rfl, retryGo, h3]
  dsimp only
  rw [if_pos rfl, hmsg]

theorem C7_retry_exhaustion_witness :
    extractTermsWithRetry (fun _ => (.error "boom" : Except String Unit)) =
      (.error ("Gemini API failed after 3 attempts: " ++ "boom"),
       [AI_RETRY_DELAY * 2 ^ 0, AI_RETRY_DELAY * 2 ^ 1]) :=
  C7_retry_exhaustion (fun _ => (.error "boom" : Except String Unit))
    "boom" "boom" "boom" rfl rfl rfl

/-! ## Claims C4 and C8: `FileProcessor.processFile`

`readTabular` delegates to external parsers (csv-parse, XLSX, `JSON.parse`)
and `readUnstructured` delegates to pdf-parse / UTF-8 decoding; these are
host-library effects, so their outcomes are parameters of the model:
`parsedRows` is the outcome of `readTabular` (`.error` = the parser threw,
carrying the stringified error) and `rawText` the outcome of the raw text
extraction of `readUnstructured`, to which the model applies the
`truncateText` step itself. -/

structure FileMetadata where
  filename : String
  mimetype : String
  size : Nat
  datasetId : String
deriving DecidableEq, Repr

/-- A parsed row: an association list from column names to cell values;
`none` models a `null`/`undefined` cell, and an absent key models an absent
property (`row[name]` is `undefined`). -/
abbrev Row := List (String × Option String)

def cellGet (row : Row) (name : String) : Option String :=
  match row.find? (fun p => p.1 = name) with
  | some p => p.2
  | none => none

/-- `String(row[name] ?? "")`. -/
def getCellStr (row : Row) (name : String) : String :=
  (cellGet row name).getD ""

structure ColumnPreview where
  name : String
  detectedType : DataType
  samples : List String
  nullCount : Nat
  uniqueCount : Nat
  statistics : Option NumStats
deriving DecidableEq, Repr

/-- `Array.from(new Set(xs))`: the distinct elements in first-seen order. -/
def setDedup : List String → List String
  | [] => []
  | a :: l => a :: setDedup (l.filter (fun x => x ≠ a))
termination_by l => l.length
decreasing_by simp_wf; exact Nat.lt_succ_of_le (List.length_filter_le _ _)

def tabularExtensions : List String := [".csv", ".xlsx", ".xls", ".tsv", ".json"]

def tabularMimeTypes : List String := ["csv", "excel", "sheet", "tab-separated", "json"]

/-- `FileProcessor.looksTabular`. -/
def looksTabular (filename mimetype : String) : Bool :=
  let lower := filename.toList.map Char.toLower
  tabularExtensions.any (fun ext => ext.toList.isSuffixOf lower) ||
    tabularMimeTypes.any (fun ty =>
      decide (ty.toList <:+: mimetype.toList.map Char.toLower))

/-- `FileProcessor.profileColumns`. -/
def profileColumns (dateParse : String → Bool) (rows : List Row) (sampleCount : Nat) :
    List ColumnPreview :=
  if rows.isEmpty then []
  else
    let columns := (rows.headD []).map Prod.fst
    let analysisRows := rows.take MAX_ROWS_TO_ANALYZE
    columns.map (fun name =>
      let values := (analysisRows.map (fun r => getCellStr r name)).filter
        (fun v => !(jsTrim v.toList).isEmpty)
      let allValues := analysisRows.map (fun r => cellGet r name)
      let nullCount := (allValues.filter (fun v => v = none || v = some "")).length
      let uniqueValues := setDedup values
      { name := jsTrimStr name
        detectedType := detectDataType dateParse (values.take TYPE_DETECTION_SAMPLE_SIZE)
        samples := uniqueValues.take sampleCount
        nullCount := nullCount
        uniqueCount := uniqueValues.length
        statistics := calculateStatistics values
          (detectDataType dateParse (values.take TYPE_DETECTION_SAMPLE_SIZE)) })

structure ProcessOutput where
  columnPreview : List ColumnPreview
  unstructuredText : String
  warnings : List String
deriving DecidableEq, Repr

def largeDatasetWarning (total : Nat) : String :=
  "Large dataset: analyzed first " ++ toString MAX_ROWS_TO_ANALYZE ++ " rows of " ++
    toString total

def tabularFailWarning (e : String) : String :=
  "Tabular processing failed: " ++ e ++ ". Falling back to text processing."

/-- `FileProcessor.processFile`. -/
def processFile (dateParse : String → Bool) (meta : FileMetadata)
    (parsedRows : Except String (List Row)) (rawText : Except String String) :
    Except String ProcessOutput :=
  if meta.size > MAX_FILE_SIZE then
    .error ("File too large: " ++ toString meta.size ++ " bytes (max: " ++
      toString MAX_FILE_SIZE ++ ")")
  else if looksTabular meta.filename meta.mimetype then
    match parsedRows with
    | .ok rows =>
        .ok ⟨profileColumns dateParse rows SAMPLE_VALUES_COUNT, "",
          if rows.length > MAX_ROWS_TO_ANALYZE then [largeDatasetWarning rows.length]
          else []⟩
    | .error e =>
        match rawText with
        | .ok t => .ok ⟨[], truncateTextStr t MAX_TEXT_LENGTH, [tabularFailWarning e]⟩
        | .error e2 => .error e2
  else
    match rawText with
    | .ok t => .ok ⟨[], truncateTextStr t MAX_TEXT_LENGTH, []⟩
    | .error e2 => .error e2

/-- C4 counterexample: a file classified tabular (`.csv` extension) whose
rows parse to the empty list yields an *empty* ColumnPreview list, against
the claimed invariant "tabular → non-empty". -/
theorem C4_counterexample :
    looksTabular "empty.csv" "text/csv" = true ∧
    processFile (fun _ => false) ⟨"empty.csv", "text/csv", 10, "ds"⟩ (.ok []) (.ok "") =
      .ok ⟨[], "", []⟩ := by
  constructor
  · decide
  · rfl

/-- C4 (amended): if the file is classified tabular, row parsing succeeds,
and the parsed rows are non-empty with at least one column in the first row,
the returned ColumnPreview list is non-empty; if the file is classified
unstructured, the returned ColumnPreview list is empty (tabular files whose
parse returns no rows or no columns also yield an empty list, and a tabular
parse failure falls back to an empty list — see C8). -/
theorem C4_preview_by_branch (dateParse : String → Bool) (meta : FileMetadata)
    (parsedRows : Except String (List Row)) (rawText : Except String String)
    (hsize : ¬ meta.size > MAX_FILE_SIZE) :
    (∀ rows, looksTabular meta.filename meta.mimetype = true →
      parsedRows = .ok rows → rows ≠ [] → (rows.headD []).map Prod.fst ≠ [] →
      ∃ out, processFile dateParse meta parsedRows rawText = .ok out ∧
        out.columnPreview ≠ []) ∧
    (∀ t, looksTabular meta.filename meta.mimetype = false →
      rawText = .ok t →
      processFile dateParse meta parsedRows rawText =
        .ok ⟨[], truncateTextStr t MAX_TEXT_LENGTH, []⟩) := by
  constructor
  · intro rows htab hrows hne hcols
    subst hrows
    unfold processFile
    rw [if_neg hsize, if_pos htab]
    refine ⟨_, rfl, ?_⟩
    unfold profileColumns
    rw [if_neg (by simpa [List.isEmpty_iff] using hne)]
    simpa using hcols
  · intro t hntab hraw
    subst hraw
    unfold processFile
    rw [if_neg hsize, if_neg (by simp [hntab])]

theorem C4_preview_by_branch_witness :
    (∃ out, processFile (fun _ => false) ⟨"a.csv", "text/csv", 10, "ds"⟩
        (.ok [[("amount", some "1")]]) (.ok "") = .ok out ∧
      out.columnPreview ≠ []) ∧
    processFile (fun _ => false) ⟨"notes.txt", "text/plain", 10, "ds"⟩
        (.ok []) (.ok "hello") =
      .ok ⟨[], truncateTextStr "hello" MAX_TEXT_LENGTH, []⟩ :=
  ⟨(C4_preview_by_branch (fun _ => false) ⟨"a.csv", "text/csv", 10, "ds"⟩
      (.ok [[("amount", some "1")]]) (.ok "") (by decide)).1
      [[("amount", some "1")]] (by decide) rfl (by decide) (by decide),
   (C4_preview_by_branch (fun _ => false) ⟨"notes.txt", "text/plain", 10, "ds"⟩
      (.ok []) (.ok "hello") (by decide)).2 "hello" (by decide) rfl⟩

/-- C8: For every file classified tabular whose row parsing throws,
`processFile` does not fail the request: it returns an empty columnPreview,
the (truncated) unstructured text extracted from the same bytes, and a
warnings list containing the message explaining the fallback. -/
theorem C8_parse_failure_falls_back (dateParse : String → Bool) (meta : FileMetadata)
    (parsedRows : Except String (List Row)) (rawText : Except String String)
    (e t : String)
    (hsize : ¬ meta.size > MAX_FILE_SIZE)
    (htab : looksTabular meta.filename meta.mimetype = true)
    (hparse : parsedRows = .error e) (hraw : rawText = .ok t) :
    processFile dateParse meta parsedRows rawText =
      .ok ⟨[], truncateTextStr t MAX_TEXT_LENGTH, [tabularFailWarning e]⟩ ∧
    tabularFailWarning e =
      "Tabular processing failed: " ++ e ++ ". Falling back to text processing." := by
  subst hparse
  subst hraw
  unfold processFile
  rw [if_neg hsize, if_pos htab]
  exact ⟨rfl, rfl⟩

theorem C8_parse_failure_falls_back_witness :
    processFile (fun _ => false) ⟨"broken.csv", "text/csv", 10, "ds"⟩
        (.error "Failed to parse tabular data") (.ok "raw,text") =
      .ok ⟨[], truncateTextStr "raw,text" MAX_TEXT_LENGTH,
        [tabularFailWarning "Failed to parse tabular data"]⟩ :=
  (C8_parse_failure_falls_back (fun _ => false) ⟨"broken.csv", "text/csv", 10, "ds"⟩
    (.error "Failed to parse tabular data") (.ok "raw,text")
    "Failed to parse tabular data" "raw,text"
    (by decide) (by decide) rfl rfl).1

/-! ## Claim C10: `BackgroundGlossaryProcessor.processFileInBackground`

The awaited calls inside the method (extractor initialization, status
updates, storage download, metadata query, extraction, term/rule
persistence) are external effects; each one's outcome is an oracle field
(`.error` = the awaited call threw).  The model returns the final in-flight
set, the ordered list of steps attempted, and the outcome.  The `finally`
clause is modelled by performing the `delete` on every path of the
try/catch body; the early `return` for a duplicate id happens before the
`add` and before the `try`, so neither the body nor the `finally` runs. -/

inductive BgStep where
  | initExtractor | statusProcessing | download | getMetadata | extract
  | saveTerms | saveRules | statusProcessed | statusFailed
deriving DecidableEq, Repr

structure BgOracles where
  initExtractor : Except String Unit
  statusProcessing : Except String Unit
  download : Except String Unit
  getMetadata : Except String Unit
  extract : Except String Unit
  saveTerms : Except String Unit
  saveRules : Except String Unit
  statusProcessed : Except String Unit
  statusFailed : Except String Unit

inductive BgOutcome where
  | skippedDuplicate | processed | failed
deriving DecidableEq, Repr

/-- The try-block body: run the steps in order, stopping at the first
failure; on a failure the catch block attempts the `failed` status update
(whose own failure still propagates to the caller, but the `finally`
clause runs regardless). -/
def runBgBody (o : BgOracles) : List BgStep × BgOutcome :=
  go [(.initExtractor, o.initExtractor), (.statusProcessing, o.statusProcessing),
      (.download, o.download), (.getMetadata, o.getMetadata), (.extract, o.extract),
      (.saveTerms, o.saveTerms), (.saveRules, o.saveRules),
      (.statusProcessed, o.statusProcessed)] []
where
  go : List (BgStep × Except String Unit) → List BgStep → List BgStep × BgOutcome
    | [], acc => (acc.reverse, .processed)
    | (st, r) :: rest, acc =>
        match r with
        | .ok _ => go rest (st :: acc)
        | .error _ => ((st :: acc).reverse ++ [.statusFailed], .failed)

/-- `BackgroundGlossaryProcessor.processFileInBackground`, as a transition
on the in-flight set `processingQueue`. -/
def processFileInBackground (queue : Finset String) (fileId : String) (o : BgOracles) :
    Finset String × List BgStep × BgOutcome :=
  if fileId ∈ queue then (queue, [], .skippedDuplicate)
  else
    let body := runBgBody o
    ((insert fileId queue).erase fileId, body.1, body.2)

/-- C10: an invocation whose fileId is already in the in-flight set returns
immediately — no step is attempted, the set is unchanged (the existing
entry is not removed); an invocation that inserts its fileId removes it
before returning on every exit path (every combination of step outcomes,
success or failure), leaving the set exactly as it was. -/
theorem C10_inflight_guard (queue : Finset String) (fileId : String) (o : BgOracles) :
    (fileId ∈ queue →
      processFileInBackground queue fileId o = (queue, [], .skippedDuplicate)) ∧
    (fileId ∉ queue →
      (processFileInBackground queue fileId o).1 = queue ∧
      fileId ∉ (processFileInBackground queue fileId o).1) := by
  constructor
  · intro h
    unfold processFileInBackground
    rw [if_pos h]
  · intro h
    have hq : (processFileInBackground queue fileId o).1 = queue := by
      unfold processFileInBackground
      rw [if_neg h]
      exact Finset.erase_insert h
    exact ⟨hq, by rw [hq]; exact h⟩

theorem C10_inflight_guard_witness :
    (processFileInBackground {"f1"} "f1"
        ⟨.ok (), .ok (), .ok (), .ok (), .ok (), .ok (), .ok (), .ok (), .ok ()⟩ =
      ({"f1"}, [], .skippedDuplicate)) ∧
    ((processFileInBackground {"f1"} "f2"
        ⟨.ok (), .ok (), .error "download failed", .ok (), .ok (), .ok (), .ok (),
          .ok (), .ok ()⟩).1 = {"f1"} ∧
      "f2" ∉ (processFileInBackground {"f1"} "f2"
        ⟨.ok (), .ok (), .error "download failed", .ok (), .ok (), .ok (), .ok (),
          .ok (), .ok ()⟩).1) :=
  ⟨(C10_inflight_guard {"f1"} "f1" _).1 (by decide),
   (C10_inflight_guard {"f1"} "f2" _).2 (by decide)⟩

/-! ## Claims C5 and C6: `deduplicateTerms` -/

structure GlossaryTerm where
  term : String
  definition : String
  source_columns : List String
  data_types : List String
  sample_values : List String
  synonyms : List String
  category : Option String
  confidence : ℚ
  source_file_id : Option String
  source_filename : Option String
  dataset_id : Option String
deriving DecidableEq, Repr

/-- `term.term.trim().toLowerCase()` — the deduplication key. -/
def normName (s : String) : String := String.mk ((jsTrim s.toList).map Char.toLower)

/-- First insertion of a name: `{ ...term, term: term.term.trim() }`. -/
def initTerm (t : GlossaryTerm) : GlossaryTerm := { t with term := jsTrimStr t.term }

/-- JavaScript `x || y` on an optional string (`undefined` and `""` are
falsy). -/
def orFalsy : Option String → Option String → Option String
  | some c, y => if c = "" then y else some c
  | none, y => y

/-- Merging a later duplicate `t` into the `existing` record (the `merged`
object literal of the source; `term` is inherited from `existing` by the
spread, `??` on the linkage fields keeps the first-seen value). -/
def mergeTerms (existing t : GlossaryTerm) : GlossaryTerm :=
  { existing with
    definition :=
      if t.definition.length ≤ existing.definition.length then existing.definition
      else t.definition
    source_columns := setDedup (existing.source_columns ++ t.source_columns)
    data_types := setDedup (existing.data_types ++ t.data_types)
    sample_values := setDedup (existing.sample_values ++ t.sample_values)
    synonyms := setDedup (existing.synonyms ++ t.synonyms)
    category := orFalsy existing.category t.category
    confidence := max existing.confidence t.confidence
    source_file_id := existing.source_file_id.or t.source_file_id
    source_filename := existing.source_filename.or t.source_filename
    dataset_id := existing.dataset_id.or t.dataset_id }

/-- The `seen` map: a JavaScript `Map` is an insertion-ordered association
list whose `set` updates an existing key in place. -/
abbrev TermMap := List (String × GlossaryTerm)

def mapGet (m : TermMap) (k : String) : Option GlossaryTerm :=
  (m.find? (fun p => p.1 = k)).map Prod.snd

def mapSet (m : TermMap) (k : String) (v : GlossaryTerm) : TermMap :=
  if m.any (fun p => p.1 = k) then
    m.map (fun p => if p.1 = k then (k, v) else p)
  else m ++ [(k, v)]

/-- One iteration of the `for (const term of terms)` loop. -/
def dedupStep (m : TermMap) (t : GlossaryTerm) : TermMap :=
  let k := normName t.term
  match mapGet m k with
  | none => mapSet m k (initTerm t)
  | some existing => mapSet m k (mergeTerms existing t)

/-- The descending-by-confidence ordering of the final
`sort((a, b) => (b.confidence ?? 0) - (a.confidence ?? 0))`. -/
def confGE (a b : GlossaryTerm) : Prop := b.confidence ≤ a.confidence

instance : DecidableRel confGE := fun a b => by unfold confGE; infer_instance

instance : IsTotal GlossaryTerm confGE :=
  ⟨fun a b => le_total b.confidence a.confidence⟩

instance : IsTrans GlossaryTerm confGE :=
  ⟨fun _ _ _ hab hbc => le_trans hbc hab⟩

/-- `deduplicateTerms`: fold the input into the insertion-ordered map, take
the values, and sort by confidence descending.  `Array.prototype.sort` is
stable (ES2019), and any stable sort by a total preorder yields the same
list as insertion sort, which models it here. -/
def deduplicateTerms (terms : List GlossaryTerm) : List GlossaryTerm :=
  ((terms.foldl dedupStep []).map Prod.snd).insertionSort confGE

/-- C5: Two GlossaryTerm inputs whose names are equal after trimming and
lowercasing deduplicate to the single merged record whose `term` is the
first-seen name trimmed (first-seen casing preserved) and whose confidence
is the maximum of the two. -/
theorem C5_two_duplicates_merge (t1 t2 : GlossaryTerm)
    (h : normName t1.term = normName t2.term) :
    deduplicateTerms [t1, t2] = [mergeTerms (initTerm t1) t2] ∧
    (mergeTerms (initTerm t1) t2).term = jsTrimStr t1.term ∧
    (mergeTerms (initTerm t1) t2).confidence = max t1.confidence t2.confidence := by
  refine ⟨?_, rfl, rfl⟩
  unfold deduplicateTerms
  rw [List.foldl_cons, List.foldl_cons, List.foldl_nil]
  have h1 : dedupStep [] t1 = [(normName t1.term, initTerm t1)] := rfl
  rw [h1]
  have h2 : dedupStep [(normName t1.term, initTerm t1)] t2 =
      [(normName t2.term, mergeTerms (initTerm t1) t2)] := by
    unfold dedupStep mapGet mapSet
    rw [← h]
    simp [List.find?]
  rw [h2]
  rfl

theorem C5_two_duplicates_merge_witness :
    (normName "Customer ID" = normName " customer id ") ∧
    (deduplicateTerms
        [⟨"Customer ID", "", [], [], [], [], none, 6/10, none, none, none⟩,
         ⟨" customer id ", "", [], [], [], [], none, 9/10, none, none, none⟩] =
      [mergeTerms
        (initTerm ⟨"Customer ID", "", [], [], [], [], none, 6/10, none, none, none⟩)
        ⟨" customer id ", "", [], [], [], [], none, 9/10, none, none, none⟩]) ∧
    (mergeTerms
        (initTerm ⟨"Customer ID", "", [], [], [], [], none, 6/10, none, none, none⟩)
        ⟨" customer id ", "", [], [], [], [], none, 9/10, none, none, none⟩).term =
      "Customer ID" ∧
    (mergeTerms
        (initTerm ⟨"Customer ID", "", [], [], [], [], none, 6/10, none, none, none⟩)
        ⟨" customer id ", "", [], [], [], [], none, 9/10, none, none, none⟩).confidence =
      max (6/10) (9/10) := by
  have h := C5_two_duplicates_merge
    ⟨"Customer ID", "", [], [], [], [], none, 6/10, none, none, none⟩
    ⟨" customer id ", "", [], [], [], [], none, 9/10, none, none, none⟩
    (by decide)
  exact ⟨by decide, h.1, by rw [h.2.1]; decide, h.2.2⟩

/-! ### List and trimming facts used by C6 -/

lemma setDedup_toFinset : ∀ l : List String, (setDedup l).toFinset = l.toFinset
  | [] => by simp [setDedup]
  | a :: l => by
      rw [setDedup]
      have ih := setDedup_toFinset (l.filter (fun x => x ≠ a))
      rw [List.toFinset_cons, ih, List.toFinset_cons]
      ext x
      simp only [Finset.mem_insert, List.mem_toFinset, List.mem_filter,
        decide_eq_true_eq]
      constructor
      · rintro (rfl | ⟨hx, _⟩)
        · exact Or.inl rfl
        · exact Or.inr hx
      · rintro (rfl | hx)
        · exact Or.inl rfl
        · by_cases hxa : x = a
          · exact Or.inl hxa
          · exact Or.inr ⟨hx, hxa⟩
termination_by l => l.length
decreasing_by simp_wf; exact Nat.lt_succ_of_le (List.length_filter_le _ _)

lemma dropWhile_eq_self_of_head {p : Char → Bool} {l : List Char}
    (h : ∀ c, l.head? = some c → p c = false) : l.dropWhile p = l := by
  cases l with
  | nil => rfl
  | cons c r => exact List.dropWhile_cons_of_neg (by simp [h c rfl])

lemma getLast?_of_suffix {l₁ l₂ : List Char} (h : l₁ <:+ l₂) (hne : l₁ ≠ []) :
    l₁.getLast? = l₂.getLast? := by
  obtain ⟨w, rfl⟩ := h
  rw [List.getLast?_append]
  cases hl : l₁.getLast? with
  | none => exact absurd (List.getLast?_eq_none_iff.mp hl) hne
  | some c => rfl

lemma jsTrim_getLast {s : List Char} :
    ∀ c, (jsTrim s).getLast? = some c → isJsWhitespace c = false := by
  intro c hc
  unfold jsTrim at hc
  rw [List.getLast?_reverse] at hc
  have h := List.head?_dropWhile_not isJsWhitespace (s.dropWhile isJsWhitespace).reverse
  rw [hc] at h
  exact h

lemma jsTrim_head {s : List Char} :
    ∀ c, (jsTrim s).head? = some c → isJsWhitespace c = false := by
  intro c hc
  unfold jsTrim at hc
  rw [List.head?_reverse] at hc
  have hvne : (s.dropWhile isJsWhitespace).reverse.dropWhile isJsWhitespace ≠ [] := by
    intro h0
    rw [h0] at hc
    simp at hc
  have hsuf := List.dropWhile_suffix (l := (s.dropWhile isJsWhitespace).reverse)
    isJsWhitespace
  rw [getLast?_of_suffix hsuf hvne, List.getLast?_reverse] at hc
  have h := List.head?_dropWhile_not isJsWhitespace s
  rw [hc] at h
  exact h

lemma jsTrim_eq_self {t : List Char}
    (h1 : ∀ c, t.head? = some c → isJsWhitespace c = false)
    (h2 : ∀ c, t.getLast? = some c → isJsWhitespace c = false) : jsTrim t = t := by
  unfold jsTrim
  rw [dropWhile_eq_self_of_head h1, dropWhile_eq_self_of_head
    (fun c hc => h2 c (by rwa [List.head?_reverse] at hc)), List.reverse_reverse]

lemma jsTrim_idem (s : List Char) : jsTrim (jsTrim s) = jsTrim s :=
  jsTrim_eq_self (fun c hc => jsTrim_head c hc) (fun c hc => jsTrim_getLast c hc)

lemma jsTrimStr_idem (s : String) : jsTrimStr (jsTrimStr s) = jsTrimStr s := by
  unfold jsTrimStr
  rw [show (String.mk (jsTrim s.toList)).toList = jsTrim s.toList from rfl, jsTrim_idem]

lemma normName_jsTrimStr (s : String) : normName (jsTrimStr s) = normName s := by
  unfold normName
  rw [show (jsTrimStr s).toList = jsTrim s.toList from rfl, jsTrim_idem]

/-! ### The order-insensitive view of a merged record (C6)

`termEquiv` compares exactly what the claim asserts is order-insensitive:
the four set-valued evidence fields regarded as sets, and the merged
confidence. -/

def termEquiv (a b : GlossaryTerm) : Prop :=
  a.source_columns.toFinset = b.source_columns.toFinset ∧
  a.data_types.toFinset = b.data_types.toFinset ∧
  a.sample_values.toFinset = b.sample_values.toFinset ∧
  a.synonyms.toFinset = b.synonyms.toFinset ∧
  a.confidence = b.confidence

def termOptEquiv : Option GlossaryTerm → Option GlossaryTerm → Prop
  | none, none => True
  | some a, some b => termEquiv a b
  | _, _ => False

lemma termEquiv_refl (a : GlossaryTerm) : termEquiv a a := ⟨rfl, rfl, rfl, rfl, rfl⟩

lemma termEquiv_trans {a b c : GlossaryTerm} (h1 : termEquiv a b) (h2 : termEquiv b c) :
    termEquiv a c :=
  ⟨h1.1.trans h2.1, h1.2.1.trans h2.2.1, h1.2.2.1.trans h2.2.2.1,
   h1.2.2.2.1.trans h2.2.2.2.1, h1.2.2.2.2.trans h2.2.2.2.2⟩

lemma termOptEquiv_refl : ∀ o : Option GlossaryTerm, termOptEquiv o o
  | none => trivial
  | some a => termEquiv_refl a

lemma termOptEquiv_trans : ∀ {o1 o2 o3 : Option GlossaryTerm},
    termOptEquiv o1 o2 → termOptEquiv o2 o3 → termOptEquiv o1 o3
  | none, none, none, _, _ => trivial
  | some _, some _, some _, h1, h2 => termEquiv_trans h1 h2

lemma mergeTerms_source_columns (e t : GlossaryTerm) :
    (mergeTerms e t).source_columns.toFinset =
      e.source_columns.toFinset ∪ t.source_columns.toFinset := by
  unfold mergeTerms
  rw [setDedup_toFinset, List.toFinset_append]

lemma mergeTerms_data_types (e t : GlossaryTerm) :
    (mergeTerms e t).data_types.toFinset =
      e.data_types.toFinset ∪ t.data_types.toFinset := by
  unfold mergeTerms
  rw [setDedup_toFinset, List.toFinset_append]

lemma mergeTerms_sample_values (e t : GlossaryTerm) :
    (mergeTerms e t).sample_values.toFinset =
      e.sample_values.toFinset ∪ t.sample_values.toFinset := by
  unfold mergeTerms
  rw [setDedup_toFinset, List.toFinset_append]

lemma mergeTerms_synonyms (e t : GlossaryTerm) :
    (mergeTerms e t).synonyms.toFinset = e.synonyms.toFinset ∪ t.synonyms.toFinset := by
  unfold mergeTerms
  rw [setDedup_toFinset, List.toFinset_append]

lemma mergeTerms_confidence (e t : GlossaryTerm) :
    (mergeTerms e t).confidence = max e.confidence t.confidence := rfl

lemma mergeTerms_congr {e e' : GlossaryTerm} (t : GlossaryTerm) (h : termEquiv e e') :
    termEquiv (mergeTerms e t) (mergeTerms e' t) := by
  obtain ⟨h1, h2, h3, h4, h5⟩ := h
  refine ⟨?_, ?_, ?_, ?_, ?_⟩
  · rw [mergeTerms_source_columns, mergeTerms_source_columns, h1]
  · rw [mergeTerms_data_types, mergeTerms_data_types, h2]
  · rw [mergeTerms_sample_values, mergeTerms_sample_values, h3]
  · rw [mergeTerms_synonyms, mergeTerms_synonyms, h4]
  · rw [mergeTerms_confidence, mergeTerms_confidence, h5]

lemma mergeTerms_swap (e t1 t2 : GlossaryTerm) :
    termEquiv (mergeTerms (mergeTerms e t1) t2) (mergeTerms (mergeTerms e t2) t1) := by
  refine ⟨?_, ?_, ?_, ?_, ?_⟩
  · rw [mergeTerms_source_columns, mergeTerms_source_columns,
      mergeTerms_source_columns, mergeTerms_source_columns]
    exact Finset.union_right_comm ..
  · rw [mergeTerms_data_types, mergeTerms_data_types,
      mergeTerms_data_types, mergeTerms_data_types]
    exact Finset.union_right_comm ..
  · rw [mergeTerms_sample_values, mergeTerms_sample_values,
      mergeTerms_sample_values, mergeTerms_sample_values]
    exact Finset.union_right_comm ..
  · rw [mergeTerms_synonyms, mergeTerms_synonyms,
      mergeTerms_synonyms, mergeTerms_synonyms]
    exact Finset.union_right_comm ..
  · rw [mergeTerms_confidence, mergeTerms_confidence,
      mergeTerms_confidence, mergeTerms_confidence]
    exact sup_right_comm ..

lemma initTerm_fields (t : GlossaryTerm) :
    (initTerm t).source_columns = t.source_columns ∧
    (initTerm t).data_types = t.data_types ∧
    (initTerm t).sample_values = t.sample_values ∧
    (initTerm t).synonyms = t.synonyms ∧
    (initTerm t).confidence = t.confidence :=
  ⟨rfl, rfl, rfl, rfl, rfl⟩

lemma mergeTerms_init_swap (t1 t2 : GlossaryTerm) :
    termEquiv (mergeTerms (initTerm t1) t2) (mergeTerms (initTerm t2) t1) := by
  refine ⟨?_, ?_, ?_, ?_, ?_⟩
  · rw [mergeTerms_source_columns, mergeTerms_source_columns,
      (initTerm_fields t1).1, (initTerm_fields t2).1]
    exact Finset.union_comm ..
  · rw [mergeTerms_data_types, mergeTerms_data_types,
      (initTerm_fields t1).2.1, (initTerm_fields t2).2.1]
    exact Finset.union_comm ..
  · rw [mergeTerms_sample_values, mergeTerms_sample_values,
      (initTerm_fields t1).2.2.1, (initTerm_fields t2).2.2.1]
    exact Finset.union_comm ..
  · rw [mergeTerms_synonyms, mergeTerms_synonyms,
      (initTerm_fields t1).2.2.2.1, (initTerm_fields t2).2.2.2.1]
    exact Finset.union_comm ..
  · rw [mergeTerms_confidence, mergeTerms_confidence,
      (initTerm_fields t1).2.2.2.2, (initTerm_fields t2).2.2.2.2]
    exact max_comm ..

/-- The running merge a key's group accumulates across the fold, in group
order: `none` means the key has not been seen yet. -/
def mergeFrom : Option GlossaryTerm → List GlossaryTerm → Option GlossaryTerm
  | o, [] => o
  | none, t :: g => mergeFrom (some (initTerm t)) g
  | some e, t :: g => mergeFrom (some (mergeTerms e t)) g

lemma mergeFrom_congr {e e' : GlossaryTerm} (g : List GlossaryTerm)
    (h : termEquiv e e') :
    termOptEquiv (mergeFrom (some e) g) (mergeFrom (some e') g) := by
  induction g generalizing e e' with
  | nil => exact h
  | cons t g ih => exact ih (mergeTerms_congr t h)

lemma mergeFrom_perm {g g' : List GlossaryTerm} (hp : g.Perm g') :
    ∀ o, termOptEquiv (mergeFrom o g) (mergeFrom o g') := by
  induction hp with
  | nil =>
      intro o
      cases o with
      | none => trivial
      | some a => exact termEquiv_refl a
  | cons t _ ih =>
      intro o
      cases o with
      | none => exact ih (some (initTerm t))
      | some e => exact ih (some (mergeTerms e t))
  | swap x y l =>
      intro o
      cases o with
      | none => exact mergeFrom_congr l (mergeTerms_init_swap y x)
      | some e => exact mergeFrom_congr l (mergeTerms_swap e y x)
  | trans _ _ ih1 ih2 =>
      intro o
      exact termOptEquiv_trans (ih1 o) (ih2 o)

/-! ### `Map` lemmas and the fold characterization (C6) -/

lemma any_eq_false_of_mapGet_none {m : TermMap} {k : String}
    (h : mapGet m k = none) : m.any (fun p => p.1 = k) = false := by
  unfold mapGet at h
  have hf : m.find? (fun p => p.1 = k) = none := by
    cases hf : m.find? (fun p => p.1 = k) with
    | none => rfl
    | some p => rw [hf] at h; simp at h
  rw [List.find?_eq_none] at hf
  simp only [List.any_eq_false]
  exact hf

lemma find?_updated_self (m : TermMap) (k : String) (v : GlossaryTerm)
    (hmem : ∃ p ∈ m, p.1 = k) :
    List.find? (fun p => p.1 = k) (m.map (fun p => if p.1 = k then (k, v) else p)) =
      some (k, v) := by
  induction m with
  | nil => simp at hmem
  | cons q m ih =>
      rw [List.map_cons]
      by_cases hq : q.1 = k
      · rw [if_pos hq]
        exact List.find?_cons_of_pos _ (by simp)
      · rw [if_neg hq, List.find?_cons_of_neg _ (by simpa using hq)]
        apply ih
        rcases hmem with ⟨p, hp, hpk⟩
        rcases List.mem_cons.mp hp with rfl | hp'
        · exact absurd hpk hq
        · exact ⟨p, hp', hpk⟩

lemma find?_updated_ne (m : TermMap) {k k' : String} (v : GlossaryTerm) (h : k' ≠ k) :
    List.find? (fun p => p.1 = k) (m.map (fun p => if p.1 = k' then (k', v) else p)) =
      List.find? (fun p => p.1 = k) m := by
  induction m with
  | nil => rfl
  | cons q m ih =>
      rw [List.map_cons]
      by_cases hq : q.1 = k'
      · rw [if_pos hq, List.find?_cons_of_neg _ (by simpa using h),
          List.find?_cons_of_neg _ (by simp [hq, h])]
        exact ih
      · rw [if_neg hq]
        by_cases hqk : q.1 = k
        · rw [List.find?_cons_of_pos _ (by simpa using hqk),
            List.find?_cons_of_pos _ (by simpa using hqk)]
        · rw [List.find?_cons_of_neg _ (by simpa using hqk),
            List.find?_cons_of_neg _ (by simpa using hqk)]
          exact ih

lemma mapGet_mapSet_self (m : TermMap) (k : String) (v : GlossaryTerm) :
    mapGet (mapSet m k v) k = some v := by
  unfold mapSet
  by_cases hany : m.any (fun p => p.1 = k)
  · rw [if_pos hany]
    unfold mapGet
    rw [find?_updated_self m k v
      (by simpa only [List.any_eq_true, decide_eq_true_eq] using hany)]
    rfl
  · rw [if_neg hany]
    unfold mapGet
    rw [List.find?_append]
    have hnone : m.find? (fun p => p.1 = k) = none := by
      rw [List.find?_eq_none]
      intro p hp hpk
      apply hany
      rw [List.any_eq_true]
      exact ⟨p, hp, hpk⟩
    rw [hnone]
    simp [List.find?]

lemma mapGet_mapSet_ne (m : TermMap) {k k' : String} (v : GlossaryTerm)
    (h : k' ≠ k) : mapGet (mapSet m k' v) k = mapGet m k := by
  unfold mapSet
  by_cases hany : m.any (fun p => p.1 = k')
  · rw [if_pos hany]
    unfold mapGet
    rw [find?_updated_ne m v h]
  · rw [if_neg hany]
    unfold mapGet
    rw [List.find?_append]
    have h2 : List.find? (fun p => p.1 = k) [(k', v)] = none := by
      simp [List.find?, h]
    rw [h2]
    simp

/-- The central characterization: looking a key up after the fold is
`mergeFrom` applied to that key's filtered group. -/
lemma foldl_dedupStep_lookup :
    ∀ (l : List GlossaryTerm) (m : TermMap) (k : String),
      mapGet (l.foldl dedupStep m) k =
        mergeFrom (mapGet m k) (l.filter (fun t => normName t.term = k)) := by
  intro l
  induction l with
  | nil =>
      intro m k
      rw [List.foldl_nil, List.filter_nil]
      cases hg : mapGet m k with
      | none => rfl
      | some e => rfl
  | cons t l ih =>
      intro m k
      rw [List.foldl_cons]
      by_cases hk : normName t.term = k
      · subst hk
        rw [List.filter_cons_of_pos (by simp), ih]
        simp only [dedupStep]
        cases hg : mapGet m (normName t.term) with
        | none =>
            dsimp only
            rw [mapGet_mapSet_self]
            rfl
        | some e =>
            dsimp only
            rw [mapGet_mapSet_self]
            rfl
      · rw [List.filter_cons_of_neg (by simpa using hk), ih]
        simp only [dedupStep]
        cases hg : mapGet m (normName t.term) with
        | none =>
            dsimp only
            rw [mapGet_mapSet_ne _ _ hk]
        | some e =>
            dsimp only
            rw [mapGet_mapSet_ne _ _ hk]

/-! ### Well-formedness of the fold result (C6) -/

/-- Invariant of the `seen` map: keys are pairwise distinct, each key is
the normalized name of its value, and each value's `term` is trimmed. -/
def WFmap (m : TermMap) : Prop :=
  (m.map Prod.fst).Nodup ∧
  ∀ p ∈ m, p.1 = normName p.2.term ∧ jsTrimStr p.2.term = p.2.term

lemma initTerm_term (t : GlossaryTerm) : (initTerm t).term = jsTrimStr t.term := rfl

lemma mergeTerms_term (e t : GlossaryTerm) : (mergeTerms e t).term = e.term := rfl

lemma wf_mapSet_update {m : TermMap} {k : String} {v : GlossaryTerm}
    (h : WFmap m) (hk : k = normName v.term) (ht : jsTrimStr v.term = v.term) :
    WFmap (m.map (fun p => if p.1 = k then (k, v) else p)) := by
  obtain ⟨hnd, hvals⟩ := h
  constructor
  · have : (m.map (fun p => if p.1 = k then (k, v) else p)).map Prod.fst =
        m.map Prod.fst := by
      rw [List.map_map]
      apply List.map_congr_left
      intro p _
      by_cases hp : p.1 = k
      · simp [hp]
      · simp [hp]
    rw [this]
    exact hnd
  · intro p' hp'
    rw [List.mem_map] at hp'
    obtain ⟨p, hp, rfl⟩ := hp'
    by_cases hp1 : p.1 = k
    · rw [if_pos hp1]
      exact ⟨hk, ht⟩
    · rw [if_neg hp1]
      exact hvals p hp

lemma wf_dedupStep {m : TermMap} (t : GlossaryTerm) (h : WFmap m) :
    WFmap (dedupStep m t) := by
  simp only [dedupStep]
  cases hg : mapGet m (normName t.term) with
  | none =>
      dsimp only
      unfold mapSet
      rw [if_neg (by simp [any_eq_false_of_mapGet_none hg])]
      obtain ⟨hnd, hvals⟩ := h
      constructor
      · rw [List.map_append]
        rw [List.nodup_append]
        refine ⟨hnd, by simp, ?_⟩
        intro x hx
        simp only [List.map_cons, List.map_nil, List.mem_singleton]
        intro hx2
        rw [List.mem_map] at hx
        obtain ⟨p, hp, rfl⟩ := hx
        have := any_eq_false_of_mapGet_none hg
        rw [List.any_eq_false] at this
        exact this p hp (by simpa using hx2)
      · intro p hp
        rcases List.mem_append.mp hp with hp' | hp'
        · exact hvals p hp'
        · rw [List.mem_singleton] at hp'
          subst hp'
          exact ⟨by rw [initTerm_term, normName_jsTrimStr],
            by rw [initTerm_term, jsTrimStr_idem]⟩
  | some e =>
      dsimp only
      have hefound : ∃ p ∈ m, p.1 = normName t.term ∧ p.2 = e := by
        unfold mapGet at hg
        cases hf : m.find? (fun p => p.1 = normName t.term) with
        | none => rw [hf] at hg; simp at hg
        | some p =>
            rw [hf] at hg
            have hpk := List.find?_some hf
            have hpm := List.mem_of_find?_eq_some hf
            simp only [decide_eq_true_eq] at hpk
            exact ⟨p, hpm, hpk, by simpa using hg⟩
      obtain ⟨p0, hp0, hp0k, hp0v⟩ := hefound
      have he := h.2 p0 hp0
      unfold mapSet
      rw [if_pos (by rw [List.any_eq_true]; exact ⟨p0, hp0, by simpa using hp0k⟩)]
      apply wf_mapSet_update h
      · rw [mergeTerms_term, ← hp0v, ← he.1, hp0k]
      · rw [mergeTerms_term, ← hp0v]
        exact he.2

lemma foldl_dedupStep_wf (l : List GlossaryTerm) :
    WFmap (l.foldl dedupStep []) := by
  suffices h : ∀ m, WFmap m → WFmap (l.foldl dedupStep m) from
    h [] ⟨List.nodup_nil, by simp⟩
  induction l with
  | nil => intro m hm; exact hm
  | cons t l ih =>
      intro m hm
      rw [List.foldl_cons]
      exact ih _ (wf_dedupStep t hm)

/-! ### Looking a normalized name up in the output list (C6) -/

/-- The record `deduplicateTerms` produced for the normalized name `k`. -/
def dedupLookup (l : List GlossaryTerm) (k : String) : Option GlossaryTerm :=
  (deduplicateTerms l).find? (fun t => normName t.term = k)

lemma find?_values_eq_mapGet :
    ∀ (m : TermMap), (∀ p ∈ m, p.1 = normName p.2.term) →
      ∀ k, (m.map Prod.snd).find? (fun t => normName t.term = k) = mapGet m k := by
  intro m
  induction m with
  | nil => intro _ k; rfl
  | cons p m ih =>
      intro h k
      have hp := h p (List.mem_cons_self ..)
      rw [List.map_cons]
      by_cases hk : normName p.2.term = k
      · rw [List.find?_cons_of_pos _ (by simpa using hk)]
        unfold mapGet
        rw [List.find?_cons_of_pos _ (by simp [hp, hk])]
        rfl
      · rw [List.find?_cons_of_neg _ (by simpa using hk)]
        unfold mapGet
        rw [List.find?_cons_of_neg _ (by simp [hp, hk])]
        exact ih (fun q hq => h q (List.mem_cons_of_mem _ hq)) k

/-- `find?` by normalized name is permutation-invariant when the normalized
names are pairwise distinct. -/
lemma find?_perm_nodupkeys {xs ys : List GlossaryTerm} (hp : xs.Perm ys) :
    (xs.map (fun v => normName v.term)).Nodup →
    ∀ k, xs.find? (fun t => normName t.term = k) =
      ys.find? (fun t => normName t.term = k) := by
  induction hp with
  | nil => intro _ _; rfl
  | cons x _ ih =>
      intro hnd k
      rw [List.map_cons, List.nodup_cons] at hnd
      by_cases hx : normName x.term = k
      · rw [List.find?_cons_of_pos _ (by simpa using hx),
          List.find?_cons_of_pos _ (by simpa using hx)]
      · rw [List.find?_cons_of_neg _ (by simpa using hx),
          List.find?_cons_of_neg _ (by simpa using hx)]
        exact ih hnd.2 k
  | swap x y l =>
      intro hnd k
      simp only [List.map_cons, List.nodup_cons, List.mem_cons, List.mem_map] at hnd
      by_cases hy : normName y.term = k
      · rw [List.find?_cons_of_pos _ (by simpa using hy)]
        have hx : ¬ normName x.term = k := by
          intro hx
          exact hnd.1 (Or.inl (hx.trans hy.symm).symm)
        rw [List.find?_cons_of_neg _ (by simpa using hx),
          List.find?_cons_of_pos _ (by simpa using hy)]
      · rw [List.find?_cons_of_neg _ (by simpa using hy)]
        by_cases hx : normName x.term = k
        · rw [List.find?_cons_of_pos _ (by simpa using hx),
            List.find?_cons_of_pos _ (by simpa using hx)]
        · rw [List.find?_cons_of_neg _ (by simpa using hx),
            List.find?_cons_of_neg _ (by simpa using hx),
            List.find?_cons_of_neg _ (by simpa using hy)]
  | trans h1 _ ih1 ih2 =>
      intro hnd k
      rw [ih1 hnd k, ih2 (((h1.map _).nodup_iff).mp hnd) k]

lemma dedupLookup_eq_mapGet (l : List GlossaryTerm) (k : String) :
    dedupLookup l k = mapGet (l.foldl dedupStep []) k := by
  obtain ⟨hnd, hkeys⟩ := foldl_dedupStep_wf l
  have hmapeq : ((l.foldl dedupStep []).map Prod.snd).map (fun v => normName v.term) =
      (l.foldl dedupStep []).map Prod.fst := by
    rw [List.map_map]
    apply List.map_congr_left
    intro p hp
    exact ((hkeys p hp).1).symm
  have hnd2 : (((l.foldl dedupStep []).map Prod.snd).map
      (fun v => normName v.term)).Nodup := by
    rw [hmapeq]
    exact hnd
  unfold dedupLookup deduplicateTerms
  rw [find?_perm_nodupkeys (List.perm_insertionSort confGE _)
    (((List.perm_insertionSort confGE _).map _).nodup_iff.mpr hnd2) k]
  exact find?_values_eq_mapGet _ (fun p hp => (hkeys p hp).1) k

/-! ### Idempotence of `deduplicateTerms` (C6) -/

lemma foldl_dedupStep_fresh :
    ∀ (g : List GlossaryTerm) (m : TermMap),
      (∀ t ∈ g, mapGet m (normName t.term) = none) →
      (g.map (fun t => normName t.term)).Nodup →
      (∀ t ∈ g, jsTrimStr t.term = t.term) →
      g.foldl dedupStep m = m ++ g.map (fun t => (normName t.term, t)) := by
  intro g
  induction g with
  | nil => intro m _ _ _; simp
  | cons t g ih =>
      intro m hfresh hnd htrim
      rw [List.map_cons, List.nodup_cons] at hnd
      have hinit : initTerm t = t := by
        unfold initTerm
        rw [htrim t (List.mem_cons_self ..)]
      have hstep : dedupStep m t = m ++ [(normName t.term, t)] := by
        simp only [dedupStep]
        rw [hfresh t (List.mem_cons_self ..)]
        dsimp only
        unfold mapSet
        rw [if_neg (by simp [any_eq_false_of_mapGet_none
          (hfresh t (List.mem_cons_self ..))]), hinit]
      rw [List.foldl_cons, hstep]
      rw [ih (m ++ [(normName t.term, t)]) ?fresh hnd.2
        (fun u hu => htrim u (List.mem_cons_of_mem _ hu))]
      · rw [List.map_cons, List.append_assoc]
        rfl
      case fresh =>
        intro u hu
        unfold mapGet
        rw [List.find?_append]
        have h1 : m.find? (fun p => p.1 = normName u.term) = none := by
          have := hfresh u (List.mem_cons_of_mem _ hu)
          unfold mapGet at this
          cases hf : m.find? (fun p => p.1 = normName u.term) with
          | none => rfl
          | some p => rw [hf] at this; simp at this
        have h2 : List.find? (fun p => p.1 = normName u.term)
            [(normName t.term, t)] = none := by
          have : normName t.term ≠ normName u.term := by
            intro habs
            exact hnd.1 (List.mem_map.mpr ⟨u, hu, habs.symm⟩)
          simp [List.find?, this]
        rw [h1, h2]
        rfl

lemma deduplicateTerms_mem_trimmed {l : List GlossaryTerm} :
    ∀ t ∈ deduplicateTerms l, jsTrimStr t.term = t.term := by
  intro t ht
  unfold deduplicateTerms at ht
  rw [List.mem_insertionSort, List.mem_map] at ht
  obtain ⟨p, hp, rfl⟩ := ht
  exact ((foldl_dedupStep_wf l).2 p hp).2

lemma deduplicateTerms_norms_nodup (l : List GlossaryTerm) :
    ((deduplicateTerms l).map (fun t => normName t.term)).Nodup := by
  obtain ⟨hnd, hkeys⟩ := foldl_dedupStep_wf l
  have hmapeq : ((l.foldl dedupStep []).map Prod.snd).map (fun v => normName v.term) =
      (l.foldl dedupStep []).map Prod.fst := by
    rw [List.map_map]
    apply List.map_congr_left
    intro p hp
    exact ((hkeys p hp).1).symm
  unfold deduplicateTerms
  refine ((List.perm_insertionSort confGE _).map _).nodup_iff.mpr ?_
  rw [hmapeq]
  exact hnd

lemma deduplicateTerms_sorted (l : List GlossaryTerm) :
    List.Sorted confGE (deduplicateTerms l) :=
  List.sorted_insertionSort confGE _

lemma deduplicateTerms_idem (l : List GlossaryTerm) :
    deduplicateTerms (deduplicateTerms l) = deduplicateTerms l := by
  have htrim : ∀ t ∈ deduplicateTerms l, jsTrimStr t.term = t.term :=
    deduplicateTerms_mem_trimmed
  have hnd := deduplicateTerms_norms_nodup l
  have hfold : (deduplicateTerms l).foldl dedupStep [] =
      (deduplicateTerms l).map (fun t => (normName t.term, t)) := by
    rw [foldl_dedupStep_fresh (deduplicateTerms l) [] (fun t _ => rfl) hnd htrim]
    rfl
  show ((deduplicateTerms l).foldl dedupStep [] |>.map Prod.snd).insertionSort confGE =
    deduplicateTerms l
  rw [hfold, List.map_map]
  have hid : (deduplicateTerms l).map (Prod.snd ∘ fun t => (normName t.term, t)) =
      deduplicateTerms l := by
    rw [show (Prod.snd ∘ fun t : GlossaryTerm => (normName t.term, t)) = id from rfl,
      List.map_id]
  rw [hid]
  exact (deduplicateTerms_sorted l).insertionSort_eq

/-- C6: `deduplicateTerms` is idempotent — applying it to its own output
returns that output unchanged — and for every permutation of the input term
list, the record produced for each normalized name has the same set-valued
evidence fields (regarded as sets) and the same merged confidence; only the
first-seen tie-break fields may depend on input order. -/
theorem C6_dedup_idempotent_and_order_insensitive :
    (∀ l : List GlossaryTerm,
      deduplicateTerms (deduplicateTerms l) = deduplicateTerms l) ∧
    (∀ l l' : List GlossaryTerm, l.Perm l' →
      ∀ k, termOptEquiv (dedupLookup l k) (dedupLookup l' k)) := by
  constructor
  · exact deduplicateTerms_idem
  · intro l l' hp k
    rw [dedupLookup_eq_mapGet, dedupLookup_eq_mapGet,
      foldl_dedupStep_lookup l [] k, foldl_dedupStep_lookup l' [] k]
    exact mergeFrom_perm (hp.filter _) (mapGet [] k)

theorem C6_dedup_idempotent_and_order_insensitive_witness :
    (deduplicateTerms (deduplicateTerms
        [⟨"Region", "", ["r1"], [], [], [], none, 1/2, none, none, none⟩]) =
      deduplicateTerms
        [⟨"Region", "", ["r1"], [], [], [], none, 1/2, none, none, none⟩]) ∧
    termOptEquiv
      (dedupLookup
        [⟨"Region", "", ["r1"], [], [], [], none, 1/2, none, none, none⟩,
         ⟨"region", "", ["r2"], [], [], [], none, 3/4, none, none, none⟩]
        (normName "Region"))
      (dedupLookup
        [⟨"region", "", ["r2"], [], [], [], none, 3/4, none, none, none⟩,
         ⟨"Region", "", ["r1"], [], [], [], none, 1/2, none, none, none⟩]
        (normName "Region")) :=
  ⟨C6_dedup_idempotent_and_order_insensitive.1
      [⟨"Region", "", ["r1"], [], [], [], none, 1/2, none, none, none⟩],
   C6_dedup_idempotent_and_order_insensitive.2
      [⟨"Region", "", ["r1"], [], [], [], none, 1/2, none, none, none⟩,
       ⟨"region", "", ["r2"], [], [], [], none, 3/4, none, none, none⟩]
      [⟨"region", "", ["r2"], [], [], [], none, 3/4, none, none, none⟩,
       ⟨"Region", "", ["r1"], [], [], [], none, 1/2, none, none, none⟩]
      (List.Perm.swap _ _ _) (normName "Region")⟩

end SyncMate
